import Mathlib

/-!
Verification of the `exec-rs` command-execution library (`src/lib.rs`).

The library spawns OS processes, so the embedding is parameterised by an
environment `Env` describing what the operating system does: the outcome of
each `spawn` call (numbered in call order) and the result of the final
`wait_with_output`.  The code itself — context resolution, the pipeline
loop, output classification, UTF-8 decoding of captured bytes — is
translated directly from the Rust source.

Rust `String` values produced by decoding process output are modelled as
their UTF-8 byte sequences (`Bytes`); `String::from_utf8` is modelled by
the standard UTF-8 validation predicate `validUtf8`, which is exactly the
byte-pattern table Rust's `std::str` validation implements.
-/

namespace ExecRs

/-- Byte strings captured from a process (Rust `Vec<u8>`). -/
abbrev Bytes := List Nat

/-- `Context` from `src/lib.rs`: `Local { user }` or `Remote { host, config }`.
An absent context (`none` at use sites) means direct execution. -/
inductive Context where
  | Local (user : String)
  | Remote (host : String) (config : Option String)
deriving DecidableEq

/-- `ExecError` from `src/lib.rs`.  `Io` carries the wrapped OS error
(modelled as a string); `Utf8` carries the bytes that failed to decode
(Rust's `FromUtf8Error` retains them); `TerminationWithError` carries the
exit code and the stderr-decoded message bytes. -/
inductive ExecError where
  | Execution (msg : String)
  | Io (e : String)
  | Utf8 (bytes : Bytes)
  | Chaining
  | TerminationBySignal
  | TerminationWithError (code : Int) (msg : Bytes)
  | TerminationWithErrorCode (code : Int)
deriving DecidableEq

/-- A UTF-8 continuation byte: `0x80..=0xBF`. -/
def contByte (b : Nat) : Bool := 0x80 ≤ b && b ≤ 0xBF

/-- Standard UTF-8 validity of a byte sequence — the byte-range table of
RFC 3629, which is what Rust's `String::from_utf8` checks (rejecting
overlong forms, surrogates, and code points above `0x10FFFF`). -/
def validUtf8 : Bytes → Bool
  | [] => true
  | b :: rest =>
    if b ≤ 0x7F then validUtf8 rest
    else if 0xC2 ≤ b && b ≤ 0xDF then
      match rest with
      | b1 :: r2 => contByte b1 && validUtf8 r2
      | [] => false
    else if b = 0xE0 then
      match rest with
      | b1 :: b2 :: r2 => (0xA0 ≤ b1 && b1 ≤ 0xBF) && contByte b2 && validUtf8 r2
      | _ => false
    else if (0xE1 ≤ b && b ≤ 0xEC) || b = 0xEE || b = 0xEF then
      match rest with
      | b1 :: b2 :: r2 => contByte b1 && contByte b2 && validUtf8 r2
      | _ => false
    else if b = 0xED then
      match rest with
      | b1 :: b2 :: r2 => (0x80 ≤ b1 && b1 ≤ 0x9F) && contByte b2 && validUtf8 r2
      | _ => false
    else if b = 0xF0 then
      match rest with
      | b1 :: b2 :: b3 :: r2 =>
          (0x90 ≤ b1 && b1 ≤ 0xBF) && contByte b2 && contByte b3 && validUtf8 r2
      | _ => false
    else if 0xF1 ≤ b && b ≤ 0xF3 then
      match rest with
      | b1 :: b2 :: b3 :: r2 => contByte b1 && contByte b2 && contByte b3 && validUtf8 r2
      | _ => false
    else if b = 0xF4 then
      match rest with
      | b1 :: b2 :: b3 :: r2 =>
          (0x80 ≤ b1 && b1 ≤ 0x8F) && contByte b2 && contByte b3 && validUtf8 r2
      | _ => false
    else false

/-- `String::from_utf8` on captured bytes: succeeds (returning the bytes,
which are the UTF-8 encoding of the resulting Rust `String`) exactly when
they are valid UTF-8. -/
def from_utf8 (bs : Bytes) : Except Unit Bytes :=
  if validUtf8 bs then .ok bs else .error ()

/-- `std::process::Output` as `check_output` consumes it: `status.code()`
(`none` when the process was terminated by a signal) plus the captured
stdout and stderr byte vectors. -/
structure Output where
  code : Option Int
  stdout : Bytes
  stderr : Bytes
deriving DecidableEq

/-- `CommandExec::check_output` from `src/lib.rs`, translated clause by
clause. -/
def check_output (output : Output) : Except ExecError Bytes :=
  match output.code with
  | some code =>
      if code = 0 then .ok output.stdout
      else
        match from_utf8 output.stderr with
        | .ok s => .error (.TerminationWithError code s)
        | .error _ => .error (.TerminationWithErrorCode code)
  | none => .error .TerminationBySignal

/-- The pure command-and-argument resolution performed at the top of
`CommandExec::run_single`: the `match context` building `com`, followed by
`com.args(args)`. -/
def resolve (command : String) (args : List String) (context : Option Context) :
    String × List String :=
  match context with
  | some (.Local user) => ("sudo", "-nu" :: user :: "--" :: command :: args)
  | some (.Remote host config) =>
      ("ssh", (match config with | some cfg => ["-F", cfg] | none => []) ++
        host :: command :: args)
  | none => (command, args)

/-- One pipeline stage as passed to `exec_piped`: command, arguments,
optional context. -/
abbrev Stage := String × List String × Option Context

/-- The resolved `(program, argument list)` of a stage. -/
def resolveStage (s : Stage) : String × List String := resolve s.1 s.2.1 s.2.2

/-- What the OS reports for the final `wait_with_output`: `status.code()`
and the raw byte streams the process wrote to stdout and stderr.  Only
streams that were redirected to a pipe are captured into the `Output`. -/
structure RawOut where
  code : Option Int
  outBytes : Bytes
  errBytes : Bytes
deriving DecidableEq

/-- The operating system's behaviour during one `exec_piped` call:
`spawn n prog argv` is the outcome of the `n`-th spawn (in call order) of
`prog` with `argv` — `some e` is an `std::io::Error`, `none` is success —
and `wait n` is the result of `wait_with_output` on the child created by
spawn number `n`. -/
structure Env where
  spawn : Nat → String → List String → Option String
  wait : Nat → Except String RawOut

/-- `std::process::Child` as this library uses it: the spawn index
identifying the process, plus the stdout/stderr pipe handles (`some ()`
when the stream was redirected to a pipe and the handle has not been
taken). `run_single` pipes stdout and never stderr. -/
structure Child where
  idx : Nat
  stdout : Option Unit
  stderr : Option Unit
deriving DecidableEq

/-- `Child::wait_with_output`: waits (result supplied by the environment)
and captures a stream's bytes only if its pipe handle is present —
a non-piped stream yields an empty vector. -/
def wait_with_output (env : Env) (c : Child) : Except String Output :=
  match env.wait c.idx with
  | .error e => .error e
  | .ok raw =>
      .ok ⟨raw.code,
           (match c.stdout with | some _ => raw.outBytes | none => []),
           (match c.stderr with | some _ => raw.errBytes | none => [])⟩

/-- `CommandExec::run_single` from `src/lib.rs`: resolve the invocation,
take the predecessor's stdout handle for stdin (a missing handle is a
`Chaining` error), redirect stdout to a pipe, and spawn (spawn failure is
wrapped as `Io`).  `n` is the spawn-call index used to address the
environment. -/
def run_single (env : Env) (n : Nat) (command : String) (args : List String)
    (context : Option Context) (pre : Option Child) : Except ExecError Child :=
  let resolved := resolve command args context
  match pre with
  | some c =>
      match c.stdout with
      | none => .error .Chaining
      | some _ =>
          match env.spawn n resolved.1 resolved.2 with
          | some e => .error (.Io e)
          | none => .ok ⟨n, some (), none⟩
  | none =>
      match env.spawn n resolved.1 resolved.2 with
      | some e => .error (.Io e)
      | none => .ok ⟨n, some (), none⟩

/-- The `for` loop of `CommandExec::run_piped`: spawn each stage in order,
threading the previous child as `pre`; `n` counts spawn calls already
made. -/
def runStages (env : Env) (commands : List Stage) (n : Nat)
    (child : Option Child) : Except ExecError (Option Child) :=
  match commands with
  | [] => .ok child
  | (command, args, context) :: rest =>
      match run_single env n command args context child with
      | .error e => .error e
      | .ok c => runStages env rest (n + 1) (some c)

/-- `CommandExec::run_piped` from `src/lib.rs`: run the loop, then
`child.ok_or(Chaining)?.wait_with_output()?`, `check_output`, and
`String::from_utf8`. -/
def run_piped (env : Env) (commands : List Stage) : Except ExecError Bytes :=
  match runStages env commands 0 none with
  | .error e => .error e
  | .ok none => .error .Chaining
  | .ok (some c) =>
      match wait_with_output env c with
      | .error e => .error (.Io e)
      | .ok output =>
          match check_output output with
          | .error e => .error e
          | .ok bytes =>
              match from_utf8 bytes with
              | .ok s => .ok s
              | .error _ => .error (.Utf8 bytes)

/-- `Exec::exec` for `CommandExec`: `run_piped` on the singleton list. -/
def exec (env : Env) (command : String) (args : List String)
    (context : Option Context) : Except ExecError Bytes :=
  run_piped env [(command, args, context)]

/-- `Exec::exec_piped` for `CommandExec`: delegates to `run_piped`. -/
def exec_piped (env : Env) (commands : List Stage) : Except ExecError Bytes :=
  run_piped env commands

/-- Environment where every spawn succeeds and the final wait reports exit
code 0 with stdout bytes `"hi"`. -/
def envA : Env := ⟨fun _ _ _ => none, fun _ => .ok ⟨some 0, [104, 105], []⟩⟩

/-- Environment where every spawn fails with OS error `"boom"`. -/
def envB : Env := ⟨fun _ _ _ => some "boom", fun _ => .ok ⟨some 0, [], []⟩⟩

/-- Environment where spawns succeed and the final process is terminated by
a signal (no exit code). -/
def envC : Env := ⟨fun _ _ _ => none, fun _ => .ok ⟨none, [], []⟩⟩

/-- Environment where spawns succeed and the final process exits with code 2
after writing the invalid-UTF-8 byte `0xC8` to its (un-piped) stderr. -/
def envD : Env := ⟨fun _ _ _ => none, fun _ => .ok ⟨some 2, [], [200]⟩⟩

/-! ### Helper lemmas about `run_single` and the spawn loop -/

/-- A successful spawn produces the child for spawn index `n`, with a piped
stdout handle and no stderr handle. -/
lemma run_single_ok (env : Env) (n : Nat) (command : String) (args : List String)
    (context : Option Context) (child : Option Child)
    (hchild : ∀ c, child = some c → c.stdout = some ())
    (hsp : env.spawn n (resolve command args context).1
      (resolve command args context).2 = none) :
    run_single env n command args context child = .ok ⟨n, some (), none⟩ := by
  cases child with
  | none => simp [run_single, hsp]
  | some c =>
      have hc := hchild c rfl
      simp [run_single, hc, hsp]

/-- A failed spawn surfaces the OS error wrapped in `Io`. -/
lemma run_single_fail (env : Env) (n : Nat) (command : String) (args : List String)
    (context : Option Context) (child : Option Child) (e : String)
    (hchild : ∀ c, child = some c → c.stdout = some ())
    (hsp : env.spawn n (resolve command args context).1
      (resolve command args context).2 = some e) :
    run_single env n command args context child = .error (.Io e) := by
  cases child with
  | none => simp [run_single, hsp]
  | some c =>
      have hc := hchild c rfl
      simp [run_single, hc, hsp]

/-- Whatever the environment does, a child returned by `run_single` has a
piped stdout handle and no stderr handle. -/
lemma run_single_ok_shape (env : Env) (n : Nat) (command : String)
    (args : List String) (context : Option Context) (pre : Option Child)
    (c : Child) (h : run_single env n command args context pre = .ok c) :
    c = ⟨n, some (), none⟩ := by
  cases pre with
  | none =>
      cases hs : env.spawn n (resolve command args context).1
          (resolve command args context).2 with
      | none => simp [run_single, hs] at h; exact h.symm
      | some e => simp [run_single, hs] at h
  | some cc =>
      cases hst : cc.stdout with
      | none => simp [run_single, hst] at h
      | some u =>
          cases hs : env.spawn n (resolve command args context).1
              (resolve command args context).2 with
          | none => simp [run_single, hst, hs] at h; exact h.symm
          | some e => simp [run_single, hst, hs] at h

/-- `run_single` fails only with `Chaining` or `Io`. -/
lemma run_single_error_shape (env : Env) (n : Nat) (command : String)
    (args : List String) (context : Option Context) (pre : Option Child)
    (e : ExecError) (h : run_single env n command args context pre = .error e) :
    e = .Chaining ∨ ∃ s, e = .Io s := by
  cases pre with
  | none =>
      cases hs : env.spawn n (resolve command args context).1
          (resolve command args context).2 with
      | none => simp [run_single, hs] at h
      | some s => simp [run_single, hs] at h; exact Or.inr ⟨s, h.symm⟩
  | some cc =>
      cases hst : cc.stdout with
      | none => simp [run_single, hst] at h; exact Or.inl h.symm
      | some u =>
          cases hs : env.spawn n (resolve command args context).1
              (resolve command args context).2 with
          | none => simp [run_single, hst, hs] at h
          | some s => simp [run_single, hst, hs] at h; exact Or.inr ⟨s, h.symm⟩

/-- If every spawn of a non-empty stage list succeeds, the loop ends with
the child of the last spawn, stdout piped and stderr not. -/
lemma runStages_cons_ok (env : Env) :
    ∀ (rest : List Stage) (s : Stage) (n : Nat) (child : Option Child),
      (∀ c, child = some c → c.stdout = some ()) →
      (∀ k (hk : k < (s :: rest).length),
        env.spawn (n + k) (resolveStage ((s :: rest).get ⟨k, hk⟩)).1
          (resolveStage ((s :: rest).get ⟨k, hk⟩)).2 = none) →
      runStages env (s :: rest) n child =
        .ok (some ⟨n + rest.length, some (), none⟩) := by
  intro rest
  induction rest with
  | nil =>
      intro s n child hchild hspawn
      obtain ⟨cmd, args, ctx⟩ := s
      have h0 : env.spawn n (resolve cmd args ctx).1 (resolve cmd args ctx).2 = none := by
        have h := hspawn 0 (by simp)
        simpa [resolveStage] using h
      simp [runStages, run_single_ok env n cmd args ctx child hchild h0]
  | cons s2 rest2 ih =>
      intro s n child hchild hspawn
      obtain ⟨cmd, args, ctx⟩ := s
      have h0 : env.spawn n (resolve cmd args ctx).1 (resolve cmd args ctx).2 = none := by
        have h := hspawn 0 (by simp)
        simpa [resolveStage] using h
      have hrec := ih s2 (n + 1) (some ⟨n, some (), none⟩)
        (fun c hc => by cases hc; rfl)
        (fun k hk => by
          have h := hspawn (k + 1) (Nat.succ_lt_succ hk)
          have hidx : n + 1 + k = n + (k + 1) := by omega
          rw [hidx]
          simpa using h)
      have hlen : n + 1 + rest2.length = n + (rest2.length + 1) := by omega
      rw [hlen] at hrec
      simp only [runStages, run_single_ok env n cmd args ctx child hchild h0]
      simpa using hrec

/-- If spawns `0..j-1` succeed and spawn `j` fails with OS error `e`, the
loop stops with `Io e`; spawns after `j` and the wait are never consulted. -/
lemma runStages_fail (env : Env) :
    ∀ (commands : List Stage) (j n : Nat) (child : Option Child) (e : String),
      (∀ c, child = some c → c.stdout = some ()) →
      ∀ (hj : j < commands.length),
      (∀ k (hk : k < j),
        env.spawn (n + k) (resolveStage (commands.get ⟨k, Nat.lt_trans hk hj⟩)).1
          (resolveStage (commands.get ⟨k, Nat.lt_trans hk hj⟩)).2 = none) →
      env.spawn (n + j) (resolveStage (commands.get ⟨j, hj⟩)).1
        (resolveStage (commands.get ⟨j, hj⟩)).2 = some e →
      runStages env commands n child = .error (.Io e) := by
  intro commands
  induction commands with
  | nil =>
      intro j n child e hchild hj
      exact absurd hj (by simp)
  | cons s rest ih =>
      intro j n child e hchild hj hpre hfail
      obtain ⟨cmd, args, ctx⟩ := s
      cases j with
      | zero =>
          have h0 : env.spawn n (resolve cmd args ctx).1 (resolve cmd args ctx).2
              = some e := by simpa [resolveStage] using hfail
          simp [runStages, run_single_fail env n cmd args ctx child e hchild h0]
      | succ j2 =>
          have h0 : env.spawn n (resolve cmd args ctx).1 (resolve cmd args ctx).2
              = none := by
            have h := hpre 0 (Nat.succ_pos j2)
            simpa [resolveStage] using h
          have hj2 : j2 < rest.length := Nat.lt_of_succ_lt_succ hj
          have hrec := ih j2 (n + 1) (some ⟨n, some (), none⟩) e
            (fun c hc => by cases hc; rfl) hj2
            (fun k hk => by
              have h := hpre (k + 1) (Nat.succ_lt_succ hk)
              have hidx : n + 1 + k = n + (k + 1) := by omega
              rw [hidx]
              simpa using h)
            (by
              have hidx : n + 1 + j2 = n + (j2 + 1) := by omega
              rw [hidx]
              simpa using hfail)
          simp only [runStages, run_single_ok env n cmd args ctx child hchild h0]
          simpa using hrec

/-- Any child the loop hands back has stdout piped and stderr not,
provided the incoming child does. -/
lemma runStages_some_inv (env : Env) :
    ∀ (commands : List Stage) (n : Nat) (child : Option Child),
      (∀ c, child = some c → c.stdout = some () ∧ c.stderr = none) →
      ∀ ch, runStages env commands n child = .ok (some ch) →
        ch.stdout = some () ∧ ch.stderr = none := by
  intro commands
  induction commands with
  | nil =>
      intro n child hchild ch h
      simp [runStages] at h
      exact hchild ch h
  | cons s rest ih =>
      intro n child hchild ch h
      obtain ⟨cmd, args, ctx⟩ := s
      simp only [runStages] at h
      cases hrs : run_single env n cmd args ctx child with
      | error e => rw [hrs] at h; simp at h
      | ok c =>
          rw [hrs] at h
          simp at h
          have hc := run_single_ok_shape env n cmd args ctx child c hrs
          exact ih (n + 1) (some c) (fun c2 hc2 => by cases hc2; rw [hc]; exact ⟨rfl, rfl⟩) ch h

/-- The loop fails only with `Chaining` or `Io`. -/
lemma runStages_error_shape (env : Env) :
    ∀ (commands : List Stage) (n : Nat) (child : Option Child) (e : ExecError),
      runStages env commands n child = .error e → e = .Chaining ∨ ∃ s, e = .Io s := by
  intro commands
  induction commands with
  | nil => intro n child e h; simp [runStages] at h
  | cons s rest ih =>
      intro n child e h
      obtain ⟨cmd, args, ctx⟩ := s
      simp only [runStages] at h
      cases hrs : run_single env n cmd args ctx child with
      | error e2 =>
          rw [hrs] at h
          simp at h
          cases h
          exact run_single_error_shape env n cmd args ctx child e hrs
      | ok c =>
          rw [hrs] at h
          simp at h
          exact ih (n + 1) (some c) e h

/-! ### Claim theorems -/

/-- C1: for every non-empty stage sequence in which every stage spawns
successfully and the final stage exits with code zero, `exec_piped` returns
`Ok` with exactly the final stage's standard-output bytes decoded as UTF-8
text when they are valid UTF-8, and a `Utf8` error (substituting or
truncating nothing) when they are not. -/
theorem exec_piped_all_success (env : Env) (commands : List Stage) (raw : RawOut)
    (hne : commands ≠ [])
    (hspawn : ∀ k (hk : k < commands.length),
      env.spawn k (resolveStage (commands.get ⟨k, hk⟩)).1
        (resolveStage (commands.get ⟨k, hk⟩)).2 = none)
    (hwait : env.wait (commands.length - 1) = .ok raw)
    (hcode : raw.code = some 0) :
    exec_piped env commands =
      (if validUtf8 raw.outBytes then .ok raw.outBytes
       else .error (.Utf8 raw.outBytes)) := by
  cases commands with
  | nil => exact absurd rfl hne
  | cons s rest =>
      have hrun := runStages_cons_ok env rest s 0 none (fun c hc => by cases hc)
        (fun k hk => by simpa using hspawn k hk)
      simp only [Nat.zero_add] at hrun
      have hw : env.wait rest.length = .ok raw := by simpa using hwait
      by_cases hv : validUtf8 raw.outBytes <;>
        simp [exec_piped, run_piped, hrun, wait_with_output, hw, check_output,
          hcode, from_utf8, hv]

theorem exec_piped_all_success_witness :
    exec_piped envA [("echo", ["hi"], none)] = .ok [104, 105] := by
  have h := exec_piped_all_success envA [("echo", ["hi"], none)]
    ⟨some 0, [104, 105], []⟩ (by simp) (fun k hk => rfl) rfl rfl
  rw [h]; rfl

/-- C2: `exec` on a command, argument list, and optional context returns the
same result as `exec_piped` on the one-element sequence holding them. -/
theorem exec_eq_exec_piped_singleton (env : Env) (command : String)
    (args : List String) (context : Option Context) :
    exec env command args context = exec_piped env [(command, args, context)] := rfl

/-- C3: on the empty stage sequence, `exec_piped` returns a `Chaining`
error rather than succeeding. -/
theorem exec_piped_empty_chaining (env : Env) :
    exec_piped env [] = .error .Chaining := rfl

/-- C4: `check_output` on a process result with a non-zero exit code
returns `TerminationWithError` with that code and the decoded stderr
message when the captured stderr bytes are valid UTF-8, and
`TerminationWithErrorCode` with the code and no message when they are
not. -/
theorem check_output_nonzero_exit (output : Output) (code : Int)
    (hcode : output.code = some code) (hnz : code ≠ 0) :
    check_output output =
      (if validUtf8 output.stderr then
        .error (.TerminationWithError code output.stderr)
       else .error (.TerminationWithErrorCode code)) := by
  by_cases hv : validUtf8 output.stderr <;>
    simp [check_output, hcode, hnz, from_utf8, hv]

theorem check_output_nonzero_exit_witness :
    check_output ⟨some 3, [], [104]⟩ = .error (.TerminationWithError 3 [104]) ∧
    check_output ⟨some 2, [], [255]⟩ = .error (.TerminationWithErrorCode 2) := by
  constructor
  · have h := check_output_nonzero_exit ⟨some 3, [], [104]⟩ 3 rfl (by decide)
    rw [h]; rfl
  · have h := check_output_nonzero_exit ⟨some 2, [], [255]⟩ 2 rfl (by decide)
    rw [h]; rfl

/-- C5: if the spawn of stage `j` fails with an OS error while all earlier
spawns succeeded, `exec_piped` returns an `Io` error wrapping that OS
error; the environment's behaviour for later spawn calls and for the wait
is unconstrained, so no later stage is spawned and no earlier output is
returned alongside the error. -/
theorem exec_piped_spawn_fail (env : Env) (commands : List Stage) (j : Nat)
    (e : String) (hj : j < commands.length)
    (hpre : ∀ k (hk : k < j),
      env.spawn k (resolveStage (commands.get ⟨k, Nat.lt_trans hk hj⟩)).1
        (resolveStage (commands.get ⟨k, Nat.lt_trans hk hj⟩)).2 = none)
    (hfail : env.spawn j (resolveStage (commands.get ⟨j, hj⟩)).1
      (resolveStage (commands.get ⟨j, hj⟩)).2 = some e) :
    exec_piped env commands = .error (.Io e) := by
  have hrun := runStages_fail env commands j 0 none e (fun c hc => by cases hc) hj
    (fun k hk => by simpa using hpre k hk)
    (by simpa using hfail)
  simp [exec_piped, run_piped, hrun]

theorem exec_piped_spawn_fail_witness :
    exec_piped envB [("nosuch", [], none)] = .error (.Io "boom") :=
  exec_piped_spawn_fail envB [("nosuch", [], none)] 0 "boom" (by decide)
    (fun k hk => absurd hk (Nat.not_lt_zero k)) rfl

/-- C6: if every stage spawns and the final stage is terminated by a signal
(no exit code in its status), `exec_piped` returns `TerminationBySignal`. -/
theorem exec_piped_signal (env : Env) (commands : List Stage) (raw : RawOut)
    (hne : commands ≠ [])
    (hspawn : ∀ k (hk : k < commands.length),
      env.spawn k (resolveStage (commands.get ⟨k, hk⟩)).1
        (resolveStage (commands.get ⟨k, hk⟩)).2 = none)
    (hwait : env.wait (commands.length - 1) = .ok raw)
    (hcode : raw.code = none) :
    exec_piped env commands = .error .TerminationBySignal := by
  cases commands with
  | nil => exact absurd rfl hne
  | cons s rest =>
      have hrun := runStages_cons_ok env rest s 0 none (fun c hc => by cases hc)
        (fun k hk => by simpa using hspawn k hk)
      simp only [Nat.zero_add] at hrun
      have hw : env.wait rest.length = .ok raw := by simpa using hwait
      simp [exec_piped, run_piped, hrun, wait_with_output, hw, check_output, hcode]

theorem exec_piped_signal_witness :
    exec_piped envC [("loop", [], none)] = .error .TerminationBySignal :=
  exec_piped_signal envC [("loop", [], none)] ⟨none, [], []⟩
    (by simp) (fun k hk => rfl) rfl rfl

/-- C7: a `Local { user }` context resolves to the privilege-switch program
`sudo` invoked non-interactively (`-nu`) targeting `user`, then the
end-of-options separator `--`, then the command, then all of its arguments
in order — nothing dropped. -/
theorem resolve_local_impersonated (command : String) (args : List String)
    (user : String) :
    resolve command args (some (.Local user)) =
      ("sudo", "-nu" :: user :: "--" :: command :: args) := rfl

/-- C8: a `Remote { host, config }` context resolves to the remote-shell
program `ssh`; when a config is present the `-F` option and its path
precede the host argument, and the host is followed by the command and all
of its arguments — neither args nor config dropped. -/
theorem resolve_remote (command : String) (args : List String) (host : String)
    (cfg : String) :
    resolve command args (some (.Remote host (some cfg))) =
      ("ssh", "-F" :: cfg :: host :: command :: args) ∧
    resolve command args (some (.Remote host none)) =
      ("ssh", host :: command :: args) := ⟨rfl, rfl⟩

/-- C9: an absent context (the code's encoding of direct execution)
resolves to exactly the given command with exactly the given argument
list. -/
theorem resolve_direct (command : String) (args : List String) :
    resolve command args none = (command, args) := rfl

/-- C10: stderr is never redirected to a capture pipe, so the stderr bytes
collected at the final wait are always empty: `exec_piped` can never
return `TerminationWithErrorCode`, and a non-zero final exit code always
yields `TerminationWithError` with the code and an empty message —
whatever bytes the process actually wrote to stderr. -/
theorem exec_piped_stderr_never_captured (env : Env) (commands : List Stage) :
    (∀ code, exec_piped env commands ≠ .error (.TerminationWithErrorCode code)) ∧
    (∀ (raw : RawOut) (code : Int),
      commands ≠ [] →
      (∀ k (hk : k < commands.length),
        env.spawn k (resolveStage (commands.get ⟨k, hk⟩)).1
          (resolveStage (commands.get ⟨k, hk⟩)).2 = none) →
      env.wait (commands.length - 1) = .ok raw →
      raw.code = some code → code ≠ 0 →
      exec_piped env commands = .error (.TerminationWithError code [])) := by
  constructor
  · intro code h
    simp only [exec_piped, run_piped] at h
    cases hrs : runStages env commands 0 none with
    | error e =>
        rw [hrs] at h
        rcases runStages_error_shape env commands 0 none e hrs with h2 | ⟨s, h2⟩ <;>
          subst h2 <;> simp at h
    | ok och =>
        rw [hrs] at h
        cases och with
        | none => simp at h
        | some ch =>
            obtain ⟨hso, hse⟩ := runStages_some_inv env commands 0 none
              (fun c hc => by cases hc) ch hrs
            cases hwt : env.wait ch.idx with
            | error e => simp [wait_with_output, hwt] at h
            | ok raw =>
                simp only [wait_with_output, hwt, hso, hse] at h
                cases hcd : raw.code with
                | none => simp [check_output, hcd] at h
                | some c =>
                    by_cases hz : c = 0
                    · subst hz
                      by_cases hv : validUtf8 raw.outBytes <;>
                        simp [check_output, hcd, from_utf8, hv] at h
                    · have hemp : validUtf8 [] = true := rfl
                      simp [check_output, hcd, hz, from_utf8, hemp] at h
  · intro raw code hne hspawn hwait hcode hnz
    cases commands with
    | nil => exact absurd rfl hne
    | cons s rest =>
        have hrun := runStages_cons_ok env rest s 0 none (fun c hc => by cases hc)
          (fun k hk => by simpa using hspawn k hk)
        simp only [Nat.zero_add] at hrun
        have hw : env.wait rest.length = .ok raw := by simpa using hwait
        have hemp : validUtf8 [] = true := rfl
        simp [exec_piped, run_piped, hrun, wait_with_output, hw, check_output,
          hcode, hnz, from_utf8, hemp]

theorem exec_piped_stderr_never_captured_witness :
    exec_piped envD [("failing", [], none)] = .error (.TerminationWithError 2 []) :=
  (exec_piped_stderr_never_captured envD [("failing", [], none)]).2
    ⟨some 2, [], [200]⟩ 2 (by simp) (fun k hk => rfl) rfl rfl (by decide)

end ExecRs
